import Mathlib

/-!
Shallow embedding of `bot.py` (the job-feed Discord bot of
New-Grad-Data-Science-Jobs-2026) and proofs about its specification.

Strings are modelled as Lean `String` / `List Char`; only the ASCII fragment
of Python's whitespace and case handling is modelled (every string the
program and its specification exercise is ASCII).  The persistent JSON state
file, the HTTP feed and the webhook are modelled as explicit values and as a
delivery oracle.
-/

namespace Bot

/-- Python regex `\s` (ASCII fragment): space, tab, newline, carriage
return, vertical tab, form feed.  Python `str.strip()` strips the same
class. -/
def isSpace (c : Char) : Bool :=
  c == ' ' || c == '\t' || c == '\n' || c == '\r' || c == '\x0b' || c == '\x0c'

/-- Python `str.strip()` on a char list: drop leading and trailing
whitespace. -/
def stripChars (l : List Char) : List Char :=
  ((l.dropWhile isSpace).reverse.dropWhile isSpace).reverse

/-- `re.sub(r"\s+", " ", s)`: replace every maximal whitespace run by one
space.  `pending` records that we are inside a run whose single replacement
space has already been emitted. -/
def collapseAux (pending : Bool) : List Char → List Char
  | [] => []
  | c :: rest =>
    if isSpace c then
      if pending then collapseAux true rest
      else ' ' :: collapseAux true rest
    else c :: collapseAux false rest

/-- `re.sub(r"\s+", " ", s)` as applied in `norm`. -/
def collapseWS (l : List Char) : List Char := collapseAux false l

/-- `norm` (bot.py line 67-68) on char lists:
`re.sub(r"\s+", " ", s.strip()).lower()`.  `Char.toLower` is the ASCII
lowering Python performs on this data. -/
def normChars (l : List Char) : List Char :=
  (collapseWS (stripChars l)).map Char.toLower

/-- `norm(s)` where `none` models Python `None`; `(s or "")` maps both
`None` and `""` to `""`. -/
def norm (s : Option String) : String :=
  String.mk (normChars ((s.getD ("")).data))

/-- `INCLUDE_TITLE_KEYWORDS` (bot.py lines 23-35). -/
def INCLUDE_TITLE_KEYWORDS : List String :=
  ["data analyst", "business analyst", "product analyst", "analytics",
   "bi analyst", "business intelligence", "reporting analyst",
   "insights analyst", "data science", "data scientist", "science"]

/-- `EXCLUDE_TITLE_KEYWORDS` (bot.py lines 38-65). -/
def EXCLUDE_TITLE_KEYWORDS : List String :=
  ["software engineer", "software development", "developer", "full stack",
   "frontend", "back end", "backend", "devops", "site reliability", "sre",
   "platform engineer", "ml engineer", "machine learning engineer",
   "data engineer", "cloud engineer", "security engineer", "product manager",
   "program manager", "director", "sr ", "senior ", "principal", "staff",
   "lead", "manager", "intern"]

/-- Python substring containment `needle in hay` on char lists. -/
def containsSub (hay needle : List Char) : Bool := decide (needle <:+: hay)

/-- `is_analyst_role` (bot.py lines 94-105). -/
def is_analyst_role (title : String) : Bool :=
  let t := normChars title.data
  if !(INCLUDE_TITLE_KEYWORDS.any (fun k => containsSub t k.data)) then false
  else if EXCLUDE_TITLE_KEYWORDS.any (fun k => containsSub t k.data) then false
  else true

/-- One feed record: the six fields `bot.py` reads, `none` for an absent
key. -/
structure Job where
  employer_name : Option String := none
  job_title : Option String := none
  job_city : Option String := none
  job_state : Option String := none
  job_apply_link : Option String := none
  job_posted_at : Option String := none
deriving DecidableEq

/-- `str(job.get(key, ""))` for a string-valued field. -/
def getStr (o : Option String) : String := o.getD ("")

/-- `stable_job_id` (bot.py lines 107-116). -/
def stable_job_id (job : Job) : String :=
  let employer := norm (some (getStr job.employer_name))
  let title := norm (some (getStr job.job_title))
  let city := norm (some (getStr job.job_city))
  let state := norm (some (getStr job.job_state))
  let link := norm (some (getStr job.job_apply_link))
  let posted := norm (some (getStr job.job_posted_at))
  employer ++ "||" ++ title ++ "||" ++ city ++ "||" ++ state ++ "||" ++
    link ++ "||" ++ posted

/-- A JSON scalar as decoded by Python `json.load`.  (Nested containers
never occur in the state file the program itself writes and are not
modelled.) -/
inductive PyVal where
  | pynone
  | pybool (b : Bool)
  | pyint (n : Int)
  | pystr (s : String)
deriving DecidableEq

/-- Python `str()` on a decoded scalar. -/
def pyStr : PyVal → String
  | .pynone => "None"
  | .pybool true => "True"
  | .pybool false => "False"
  | .pyint n => toString n
  | .pystr s => s

/-- The states of the persistent resource `seen_jobs.json` that
`load_seen` distinguishes: missing file, a file whose read or `json.load`
raises, a parsed JSON array, or parsed non-array JSON. -/
inductive FileState where
  | absent
  | unreadable
  | parsedList (xs : List PyVal)
  | parsedNonList (v : PyVal)
deriving DecidableEq

/-- `load_seen` (bot.py lines 70-80): `set(map(str, data))` when the file
parses as a list, the empty set otherwise. -/
def load_seen : FileState → Finset String
  | .absent => ∅
  | .unreadable => ∅
  | .parsedList xs => (xs.map pyStr).toFinset
  | .parsedNonList _ => ∅

/-- `save_seen` (bot.py lines 82-84): `json.dump(sorted(seen), f)`, fully
replacing the file contents. -/
def save_seen (seen : Finset String) : FileState :=
  .parsedList ((seen.sort (· ≤ ·)).map .pystr)

/-- Outcome of the delivery loop. -/
structure LoopOut where
  seen : Finset String
  attempted : List Job
  ok : Bool
deriving DecidableEq

/-- The delivery loop of `main` (bot.py lines 170-174): `post_embed` each
selected job in order, adding its id to `seen` after a successful post.
`dOk j = false` models `post_embed j` raising (non-2xx webhook response);
the exception aborts the loop. -/
def runLoop (dOk : Job → Bool) (seen : Finset String) :
    List (String × Job) → LoopOut
  | [] => ⟨seen, [], true⟩
  | (jid, job) :: rest =>
    if dOk job then
      let r := runLoop dOk (insert jid seen) rest
      ⟨r.seen, job :: r.attempted, r.ok⟩
    else ⟨seen, [job], false⟩

/-- Observable outcome of one run of `main`. -/
structure RunOut where
  attempted : List Job
  savedSeen : Option (Finset String)
  exitOk : Bool
deriving DecidableEq

/-- `main` (bot.py lines 152-177) as a function of the state file, the
fetched feed, `MAX_POSTS_PER_RUN` and a delivery oracle.
`analyst_jobs := jobs` is line 157 (`analyst_jobs = jobs`, the classifier
bypass marked FORCE TEST in the source); the loop at lines 161-163 builds
`new_jobs` from every candidate without consulting `seen`.
`savedSeen = some s` means `save_seen` ran and wrote `s`;
`exitOk = false` means the process died with an uncaught exception
(non-zero exit status). -/
def mainRun (fs : FileState) (jobs : List Job) (maxPosts : Nat)
    (dOk : Job → Bool) : RunOut :=
  let seen := load_seen fs
  let analyst_jobs := jobs
  let new_jobs := analyst_jobs.map (fun j => (stable_job_id j, j))
  if new_jobs.isEmpty then ⟨[], none, true⟩
  else
    let r := runLoop dOk seen (new_jobs.take maxPosts)
    if r.ok then ⟨r.attempted, some r.seen, true⟩
    else ⟨r.attempted, none, false⟩

/-! ### Character-level facts about lowering and whitespace -/

theorem toNat_ofNat_of_lt {n : Nat} (h : n < 55296) :
    (Char.ofNat n).toNat = n := by
  rw [Char.ofNat, dif_pos (Or.inl h)]
  simp [Char.ofNatAux, Char.toNat, UInt32.toNat]

theorem toLower_of_isSpace {c : Char} (h : isSpace c = true) :
    Char.toLower c = c := by
  simp only [isSpace, Bool.or_eq_true, beq_iff_eq] at h
  rcases h with ((((h | h) | h) | h) | h) | h <;> subst h <;> decide

theorem isSpace_eq_false_of_ge {c : Char} (h : 97 ≤ c.toNat) :
    isSpace c = false := by
  simp only [isSpace, Bool.or_eq_false_iff, beq_eq_false_iff_ne, ne_eq]
  refine ⟨⟨⟨⟨⟨?_, ?_⟩, ?_⟩, ?_⟩, ?_⟩, ?_⟩ <;>
    · intro hc; subst hc; exact absurd h (by decide)

theorem isSpace_toLower (c : Char) : isSpace (Char.toLower c) = isSpace c := by
  by_cases h : isSpace c = true
  · rw [toLower_of_isSpace h]
  · have h' : isSpace c = false := by simpa using h
    rw [h']
    simp only [Char.toLower]
    split
    · next hc =>
      refine isSpace_eq_false_of_ge ?_
      rw [toNat_ofNat_of_lt (by omega)]
      omega
    · exact h'

theorem toLower_idem (c : Char) :
    Char.toLower (Char.toLower c) = Char.toLower c := by
  by_cases hc : c.toNat ≥ 65 ∧ c.toNat ≤ 90
  · have h1 : Char.toLower c = Char.ofNat (c.toNat + 32) := by
      simp only [Char.toLower]
      rw [if_pos hc]
    rw [h1]
    have ht : (Char.ofNat (c.toNat + 32)).toNat = c.toNat + 32 :=
      toNat_ofNat_of_lt (by omega)
    simp only [Char.toLower]
    rw [ht, if_neg (by omega)]
  · have h1 : Char.toLower c = c := by
      simp only [Char.toLower]
      rw [if_neg hc]
    rw [h1, h1]

/-! ### Shape invariants of `stripChars` and `collapseWS` output -/

/-- Every whitespace char in the list is a single literal space followed by
a non-space char, and the list does not end in whitespace. -/
def chunked : List Char → Bool
  | [] => true
  | [c] => !isSpace c
  | c :: d :: rest =>
    (if isSpace c then c == ' ' && !isSpace d else true) && chunked (d :: rest)

/-- The list is empty or does not end in whitespace. -/
def lastOk : List Char → Bool
  | [] => true
  | [c] => !isSpace c
  | _ :: rest => lastOk rest

theorem collapseAux_cons (b : Bool) (c : Char) (rest : List Char) :
    collapseAux b (c :: rest) =
      if isSpace c then
        (if b then collapseAux true rest else ' ' :: collapseAux true rest)
      else c :: collapseAux false rest := rfl

theorem chunked_cons2 (c d : Char) (rest : List Char) :
    chunked (c :: d :: rest) =
      ((if isSpace c then c == ' ' && !isSpace d else true) &&
        chunked (d :: rest)) := rfl

theorem lastOk_tail {c : Char} {l : List Char} (h : lastOk (c :: l) = true) :
    lastOk l = true := by
  cases l with
  | nil => rfl
  | cons d rest => simpa [lastOk] using h

theorem lastOk_append_singleton (ys : List Char) (x : Char) :
    lastOk (ys ++ [x]) = !isSpace x := by
  induction ys with
  | nil => rfl
  | cons y ys ih =>
    cases hys : ys ++ [x] with
    | nil => simp at hys
    | cons d rest =>
      rw [List.cons_append, hys]
      simp only [lastOk]
      rw [← hys, ih]

theorem chunked_lastOk : ∀ l : List Char, chunked l = true → lastOk l = true
  | [], _ => rfl
  | [c], h => h
  | c :: d :: rest, h => by
    rw [chunked_cons2, Bool.and_eq_true] at h
    simpa [lastOk] using chunked_lastOk (d :: rest) h.2

theorem collapseAux_ne_nil :
    ∀ (l : List Char) (b : Bool), lastOk l = true → l ≠ [] →
      collapseAux b l ≠ []
  | [], _, _, hne => absurd rfl hne
  | [c], b, h, _ => by
    have hc : isSpace c = false := by simpa [lastOk] using h
    simp [collapseAux, hc]
  | c :: d :: rest, b, h, _ => by
    have h' : lastOk (d :: rest) = true := lastOk_tail h
    have ihne : collapseAux true (d :: rest) ≠ [] :=
      collapseAux_ne_nil (d :: rest) true h' (by simp)
    rw [collapseAux_cons]
    cases hc : isSpace c with
    | true =>
      rw [if_pos rfl]
      cases b with
      | true => rw [if_pos rfl]; exact ihne
      | false => rw [if_neg Bool.false_ne_true]; simp
    | false =>
      rw [if_neg Bool.false_ne_true]
      simp

theorem collapseAux_true_headD :
    ∀ l : List Char, isSpace ((collapseAux true l).headD ('A')) = false
  | [] => by decide
  | c :: rest => by
    rw [collapseAux_cons]
    cases hc : isSpace c with
    | true =>
      rw [if_pos rfl, if_pos rfl]
      exact collapseAux_true_headD rest
    | false =>
      rw [if_neg Bool.false_ne_true]
      simpa using hc

theorem chunked_collapseAux :
    ∀ (l : List Char) (b : Bool), lastOk l = true →
      chunked (collapseAux b l) = true
  | [], _, _ => rfl
  | [c], b, h => by
    have hc : isSpace c = false := by simpa [lastOk] using h
    simp [collapseAux, hc, chunked]
  | c :: d :: rest, b, h => by
    have h' : lastOk (d :: rest) = true := lastOk_tail h
    rw [collapseAux_cons]
    cases hc : isSpace c with
    | false =>
      rw [if_neg Bool.false_ne_true]
      have ih := chunked_collapseAux (d :: rest) false h'
      cases hX : collapseAux false (d :: rest) with
      | nil => simp [chunked, hc]
      | cons x xs =>
        rw [hX] at ih
        rw [chunked_cons2, if_neg (by simp [hc]), ih]
        simp
    | true =>
      rw [if_pos rfl]
      cases b with
      | true =>
        rw [if_pos rfl]
        exact chunked_collapseAux (d :: rest) true h'
      | false =>
        rw [if_neg Bool.false_ne_true]
        have ih := chunked_collapseAux (d :: rest) true h'
        have hne := collapseAux_ne_nil (d :: rest) true h' (by simp)
        have hhd := collapseAux_true_headD (d :: rest)
        cases hX : collapseAux true (d :: rest) with
        | nil => exact absurd hX hne
        | cons x xs =>
          rw [hX] at ih hhd
          rw [List.headD_cons] at hhd
          rw [chunked_cons2, if_pos (by decide), ih, hhd]
          simp

theorem collapseAux_id :
    ∀ (l : List Char) (b : Bool), chunked l = true →
      (b = true → isSpace (l.headD ('A')) = false) →
      collapseAux b l = l
  | [], _, _, _ => rfl
  | [c], b, h, _ => by
    have hc : isSpace c = false := by simpa [chunked] using h
    simp [collapseAux, hc]
  | c :: d :: rest, b, h, hb => by
    cases hc : isSpace c with
    | false =>
      have h' : chunked (d :: rest) = true := by
        rw [chunked_cons2, Bool.and_eq_true] at h
        exact h.2
      have ih := collapseAux_id (d :: rest) false h' (by simp)
      rw [collapseAux_cons, if_neg (by simp [hc]), ih]
    | true =>
      cases b with
      | true =>
        have hhd := hb rfl
        rw [List.headD_cons, hc] at hhd
        exact absurd hhd (by simp)
      | false =>
        rw [chunked_cons2, if_pos hc] at h
        simp only [Bool.and_eq_true, beq_iff_eq, Bool.not_eq_true'] at h
        obtain ⟨⟨hceq, hd⟩, hrest⟩ := h
        have ih := collapseAux_id (d :: rest) true hrest
          (fun _ => by rw [List.headD_cons]; exact hd)
        subst hceq
        rw [collapseAux_cons, if_pos (by decide), if_neg Bool.false_ne_true, ih]

theorem chunked_map_toLower :
    ∀ l : List Char, chunked l = true →
      chunked (l.map Char.toLower) = true
  | [], _ => rfl
  | [c], h => by
    have hc : isSpace c = false := by simpa [chunked] using h
    simp [chunked, isSpace_toLower, hc]
  | c :: d :: rest, h => by
    have h2 : chunked (d :: rest) = true := by
      rw [chunked_cons2, Bool.and_eq_true] at h
      exact h.2
    have ih := chunked_map_toLower (d :: rest) h2
    rw [List.map_cons, List.map_cons]
    have ih' : chunked (Char.toLower d :: List.map Char.toLower rest) = true := by
      rw [← List.map_cons]; exact ih
    cases hc : isSpace c with
    | false =>
      have hcl : isSpace (Char.toLower c) = false := by
        rw [isSpace_toLower]; exact hc
      rw [chunked_cons2, if_neg (by simp [hcl]), ih']
      simp
    | true =>
      rw [chunked_cons2, if_pos hc] at h
      simp only [Bool.and_eq_true, beq_iff_eq, Bool.not_eq_true'] at h
      obtain ⟨⟨hceq, hd⟩, -⟩ := h
      subst hceq
      have hsp : Char.toLower ' ' = ' ' := by decide
      have hdl : isSpace (Char.toLower d) = false := by
        rw [isSpace_toLower]; exact hd
      rw [hsp, chunked_cons2, if_pos (by decide), hdl, ih']
      simp

/-! ### `stripChars` output facts and idempotence of `normChars` -/

theorem strip_headD (l : List Char) :
    isSpace ((stripChars l).headD ('A')) = false := by
  cases hs : stripChars l with
  | nil => decide
  | cons x xs =>
    have hpre : stripChars l <+: (l.dropWhile isSpace) := by
      have h1 : ((l.dropWhile isSpace).reverse.dropWhile isSpace).reverse <+:
          (l.dropWhile isSpace).reverse.reverse :=
        List.reverse_prefix.mpr (List.dropWhile_suffix _)
      rw [List.reverse_reverse] at h1
      exact h1
    rw [hs] at hpre
    obtain ⟨t, ht⟩ := hpre
    have ht' : l.dropWhile isSpace = x :: (xs ++ t) := by
      rw [← ht]
      simp
    have h0 := List.head?_dropWhile_not isSpace l
    rw [ht'] at h0
    simp only [List.head?_cons] at h0
    rw [List.headD_cons]
    exact h0

theorem strip_lastOk (l : List Char) : lastOk (stripChars l) = true := by
  unfold stripChars
  cases hX : (l.dropWhile isSpace).reverse.dropWhile isSpace with
  | nil => rfl
  | cons x xs =>
    have h0 := List.head?_dropWhile_not isSpace (l.dropWhile isSpace).reverse
    rw [hX] at h0
    simp only [List.head?_cons] at h0
    rw [List.reverse_cons, lastOk_append_singleton]
    simp [h0]

theorem strip_id (l : List Char) (hhd : isSpace (l.headD ('A')) = false)
    (hlast : lastOk l = true) : stripChars l = l := by
  have h1 : l.dropWhile isSpace = l := by
    cases l with
    | nil => rfl
    | cons c rest =>
      rw [List.headD_cons] at hhd
      simp [List.dropWhile_cons, hhd]
  have h2 : l.reverse.dropWhile isSpace = l.reverse := by
    cases hrev : l.reverse with
    | nil => rfl
    | cons x xs =>
      have hl : l = xs.reverse ++ [x] := by
        have := congrArg List.reverse hrev
        simpa using this
      rw [hl, lastOk_append_singleton] at hlast
      have hx : isSpace x = false := by simpa using hlast
      simp [List.dropWhile_cons, hx]
  unfold stripChars
  rw [h1, h2, List.reverse_reverse]

theorem headD_map_toLower (l : List Char)
    (h : isSpace (l.headD ('A')) = false) :
    isSpace ((l.map Char.toLower).headD ('A')) = false := by
  cases l with
  | nil => decide
  | cons c rest =>
    rw [List.map_cons, List.headD_cons, isSpace_toLower]
    rw [List.headD_cons] at h
    exact h

theorem normChars_idem (l : List Char) :
    normChars (normChars l) = normChars l := by
  have h1 := strip_headD l
  have h2 := strip_lastOk l
  have h3 : chunked (collapseWS (stripChars l)) = true :=
    chunked_collapseAux (stripChars l) false h2
  have h4 : isSpace ((collapseWS (stripChars l)).headD ('A')) = false := by
    unfold collapseWS
    cases hl : stripChars l with
    | nil => decide
    | cons c rest =>
      rw [hl, List.headD_cons] at h1
      rw [collapseAux_cons, if_neg (by simp [h1]), List.headD_cons]
      exact h1
  set Y := normChars l with hY
  have h5 : chunked Y = true := chunked_map_toLower _ h3
  have h6 : isSpace (Y.headD ('A')) = false := headD_map_toLower _ h4
  have h7 : lastOk Y = true := chunked_lastOk Y h5
  show (collapseWS (stripChars Y)).map Char.toLower = Y
  rw [strip_id Y h6 h7]
  unfold collapseWS
  rw [collapseAux_id Y false h5 (fun hb => nomatch hb)]
  rw [hY]
  unfold normChars
  rw [List.map_map]
  exact List.map_congr_left (fun c _ => toLower_idem c)

/-- C9: the Normalizer `norm` is a total pure function, idempotent, maps
null input to the empty string, and sends a title with outer whitespace,
internal whitespace runs and capitals to its trimmed, collapsed,
lowercased form. -/
theorem norm_idem_total :
    (∀ s : Option String, norm (some (norm s)) = norm s) ∧
    norm none = "" ∧
    norm (some ("  A   B ")) = "a b" := by
  refine ⟨fun s => ?_, by decide, by decide⟩
  show String.mk (normChars (normChars ((s.getD ("")).data))) = _
  exact congrArg String.mk (normChars_idem _)

/-! ### Classifier, identity builder and Seen-Set Store properties -/

theorem is_analyst_role_eq_and (t : String) :
    is_analyst_role t =
      (INCLUDE_TITLE_KEYWORDS.any
          (fun k => containsSub (normChars t.data) k.data) &&
        !(EXCLUDE_TITLE_KEYWORDS.any
          (fun k => containsSub (normChars t.data) k.data))) := by
  show (if !(INCLUDE_TITLE_KEYWORDS.any
          (fun k => containsSub (normChars t.data) k.data)) then false
        else if EXCLUDE_TITLE_KEYWORDS.any
          (fun k => containsSub (normChars t.data) k.data) then false
        else true) = _
  cases INCLUDE_TITLE_KEYWORDS.any
      (fun k => containsSub (normChars t.data) k.data) <;>
    cases EXCLUDE_TITLE_KEYWORDS.any
      (fun k => containsSub (normChars t.data) k.data) <;> rfl

/-- C5: the Classifier accepts a title iff the normalized title contains at
least one include keyword as a substring and contains no exclude keyword;
in particular "Senior Data Scientist" is rejected (exclude keyword present
despite include keyword), "Data Analyst" is accepted, and
"Software Engineer" is rejected (no include keyword). -/
theorem is_analyst_role_spec :
    (∀ t : String, is_analyst_role t = true ↔
      ((∃ k ∈ INCLUDE_TITLE_KEYWORDS, k.data <:+: normChars t.data) ∧
        ∀ k ∈ EXCLUDE_TITLE_KEYWORDS, ¬ k.data <:+: normChars t.data)) ∧
    is_analyst_role ("Senior Data Scientist") = false ∧
    is_analyst_role ("Data Analyst") = true ∧
    is_analyst_role ("Software Engineer") = false := by
  refine ⟨fun t => ?_, by decide, by decide, by decide⟩
  rw [is_analyst_role_eq_and t]
  simp [containsSub, List.any_eq_true, List.any_eq_false]

/-- C8: two feed records whose six compared fields are equal after
normalization (in particular, records differing only in whitespace and
letter case) always get the same identity key. -/
theorem stable_job_id_norm_eq (a b : Job)
    (h1 : norm (some (getStr a.employer_name))
        = norm (some (getStr b.employer_name)))
    (h2 : norm (some (getStr a.job_title)) = norm (some (getStr b.job_title)))
    (h3 : norm (some (getStr a.job_city)) = norm (some (getStr b.job_city)))
    (h4 : norm (some (getStr a.job_state)) = norm (some (getStr b.job_state)))
    (h5 : norm (some (getStr a.job_apply_link))
        = norm (some (getStr b.job_apply_link)))
    (h6 : norm (some (getStr a.job_posted_at))
        = norm (some (getStr b.job_posted_at))) :
    stable_job_id a = stable_job_id b := by
  simp only [stable_job_id]
  rw [h1, h2, h3, h4, h5, h6]

/-- A record written with extra whitespace and capitals. -/
def jobWsA : Job :=
  { employer_name := some ("ACME  Corp"), job_title := some ("Data Analyst"),
    job_city := some ("New  York"), job_state := some ("NY"),
    job_apply_link := some ("HTTPS://X.example/APPLY"),
    job_posted_at := some (" 3 days ago ") }

/-- The same record up to whitespace and case. -/
def jobWsB : Job :=
  { employer_name := some (" acme corp "), job_title := some ("DATA ANALYST"),
    job_city := some ("new york"), job_state := some ("ny"),
    job_apply_link := some ("https://x.example/apply"),
    job_posted_at := some ("3  days  ago") }

/-- Witness for C8 at two concrete whitespace/case variants. -/
theorem stable_job_id_norm_eq_witness :
    stable_job_id jobWsA = stable_job_id jobWsB :=
  stable_job_id_norm_eq jobWsA jobWsB (by decide) (by decide) (by decide)
    (by decide) (by decide) (by decide)

/-- C6: Seen-Set Store round trip: `save_seen` serializes the set as a
sorted deduplicated array of strings, fully overwriting the resource, and
`load_seen` of the result returns exactly the saved set - for every finite
set of strings, including the empty one. -/
theorem save_load_roundtrip (S : Finset String) :
    load_seen (save_seen S) = S := by
  show (((S.sort (· ≤ ·)).map PyVal.pystr).map pyStr).toFinset = S
  rw [List.map_map]
  have h : (pyStr ∘ PyVal.pystr) = fun s => s := rfl
  rw [h, List.map_id']
  exact Finset.sort_toFinset _ _

/-- C7 counterexample: parsed contents that are a JSON array but not an
array of strings are not mapped to the empty set - `[1, 2]` loads as the
set of the elements' string forms. -/
theorem load_seen_nonstring_list :
    load_seen (.parsedList [.pyint 1, .pyint 2]) ≠ (∅ : Finset String) ∧
    load_seen (.parsedList [.pyint 1, .pyint 2]) =
      ({"1", "2"} : Finset String) := by
  exact ⟨by decide, by decide⟩

/-- C7 amended: `load_seen` never raises; a missing file, unreadable or
unparseable contents, or contents parsed as non-array JSON yield the empty
set (an array with non-string elements is instead coerced, see the C10
theorem). -/
theorem load_seen_resilient :
    load_seen .absent = ∅ ∧ load_seen .unreadable = ∅ ∧
    ∀ v : PyVal, load_seen (.parsedNonList v) = ∅ :=
  ⟨rfl, rfl, fun _ => rfl⟩

/-- C10: a parsed JSON array whose elements are not all strings is not
treated as corrupt: every element is coerced to its string form, e.g.
`[1, 2]` loads as the set of "1" and "2". -/
theorem load_seen_coerces :
    (∀ xs : List PyVal,
      load_seen (.parsedList xs) = (xs.map pyStr).toFinset) ∧
    load_seen (.parsedList [.pyint 1, .pyint 2]) =
      ({"1", "2"} : Finset String) :=
  ⟨fun _ => rfl, by decide⟩

/-! ### Dispatcher behaviour -/

/-- A listing the Classifier accepts whose key is already in the state
file. -/
def jSeen : Job :=
  { employer_name := some ("Acme"), job_title := some ("Data Analyst"),
    job_city := some ("Boston"), job_state := some ("MA"),
    job_apply_link := some ("https://a.example/1"),
    job_posted_at := some ("1 day ago") }

/-- A listing the Classifier accepts whose key is not yet recorded. -/
def jNew : Job :=
  { employer_name := some ("Beta"), job_title := some ("Business Analyst"),
    job_city := some ("Denver"), job_state := some ("CO"),
    job_apply_link := some ("https://b.example/2"),
    job_posted_at := some ("2 days ago") }

/-- A listing the Classifier rejects. -/
def jBad : Job :=
  { employer_name := some ("Gamma"), job_title := some ("Software Engineer") }

/-- A state file already holding `jSeen`'s identity key. -/
def fsSeen : FileState := .parsedList [.pystr (stable_job_id jSeen)]

/-- C1 evaluated on the spec's end-to-end scenario with the already-seen
passing listing first in feed order: the run loop never consults the
loaded Seen-Set, so it delivers the already-seen listing and persists the
set unchanged, instead of skipping it and delivering the unseen passing
listing. -/
theorem run_delivers_already_seen :
    stable_job_id jSeen ∈ load_seen fsSeen ∧
    stable_job_id jNew ∉ load_seen fsSeen ∧
    is_analyst_role ("Data Analyst") = true ∧
    is_analyst_role ("Business Analyst") = true ∧
    is_analyst_role ("Software Engineer") = false ∧
    (mainRun fsSeen [jSeen, jNew, jBad] 1 (fun _ => true)).attempted
        = [jSeen] ∧
    (mainRun fsSeen [jSeen, jNew, jBad] 1 (fun _ => true)).savedSeen
        = some (load_seen fsSeen) := by
  refine ⟨by decide, by decide, by decide, by decide, by decide, ?_, ?_⟩ <;>
    decide

/-- C2 evaluated on a classifier-rejected listing: line 157 assigns the
raw feed to the candidate list, so the rejected listing is selected,
delivered, and its identity key recorded in the persisted Seen-Set. -/
theorem run_delivers_rejected_title :
    is_analyst_role ("Software Engineer") = false ∧
    (mainRun .absent [jBad] 1 (fun _ => true)).attempted = [jBad] ∧
    (mainRun .absent [jBad] 1 (fun _ => true)).savedSeen
        = some ({stable_job_id jBad} : Finset String) := by
  refine ⟨by decide, by decide, by decide⟩

/-- C3 counterexample: with zero fetched listings the run completes
without error and delivers nothing, but returns early and `save_seen` is
never called, so the Seen-Set is not persisted - contrary to the claim. -/
theorem empty_run_skips_save :
    (mainRun .absent [] 1 (fun _ => true)).exitOk = true ∧
    (mainRun .absent [] 1 (fun _ => true)).attempted = [] ∧
    (mainRun .absent [] 1 (fun _ => true)).savedSeen = none :=
  ⟨rfl, rfl, rfl⟩

/-- C3 amended: a run with zero fetched listings (hence zero candidates)
completes without error and with zero deliveries but returns early without
persisting the Seen-Set, while a run with a non-empty feed and a
configured maximum of zero attempts no deliveries and does persist the
loaded Seen-Set unchanged. -/
theorem empty_and_zero_max_runs :
    (∀ (fs : FileState) (maxPosts : Nat) (dOk : Job → Bool),
      mainRun fs [] maxPosts dOk = ⟨[], none, true⟩) ∧
    (∀ (fs : FileState) (dOk : Job → Bool) (j : Job) (js : List Job),
      mainRun fs (j :: js) 0 dOk = ⟨[], some (load_seen fs), true⟩) := by
  exact ⟨fun fs maxPosts dOk => rfl, fun fs dOk j js => rfl⟩

theorem runLoop_fail (dOk : Job → Bool) (fid : String) (fj : Job)
    (rest : List (String × Job)) (hfail : dOk fj = false) :
    ∀ (pre : List (String × Job)) (seen : Finset String),
      (∀ p ∈ pre, dOk p.2 = true) →
      (runLoop dOk seen (pre ++ (fid, fj) :: rest)).attempted
          = pre.map Prod.snd ++ [fj] ∧
      (runLoop dOk seen (pre ++ (fid, fj) :: rest)).ok = false
  | [], seen, _ => by
    simp [runLoop, hfail]
  | (pid, pj) :: ps, seen, hpre => by
    have hp : dOk pj = true := hpre (pid, pj) (by simp)
    have hps : ∀ q ∈ ps, dOk q.2 = true := fun q hq => hpre q (by simp [hq])
    have ih := runLoop_fail dOk fid fj rest hfail ps (insert pid seen) hps
    simp [runLoop, hp, ih.1, ih.2]

/-- C4: if delivery of one selected listing fails, the run aborts: the
selected listings after it are never attempted, `save_seen` is not called
(the persistent Seen-Set stays exactly as loaded), and the process exits
non-zero. -/
theorem delivery_failure_aborts (fs : FileState) (jobs : List Job)
    (maxPosts : Nat) (dOk : Job → Bool) (pre : List (String × Job))
    (fid : String) (fj : Job) (rest : List (String × Job))
    (hsel : (jobs.map (fun j => (stable_job_id j, j))).take maxPosts
        = pre ++ (fid, fj) :: rest)
    (hpre : ∀ p ∈ pre, dOk p.2 = true)
    (hfail : dOk fj = false) :
    (mainRun fs jobs maxPosts dOk).attempted = pre.map Prod.snd ++ [fj] ∧
    (mainRun fs jobs maxPosts dOk).savedSeen = none ∧
    (mainRun fs jobs maxPosts dOk).exitOk = false := by
  have hne : (jobs.map (fun j => (stable_job_id j, j))).isEmpty = false := by
    cases hj : jobs.map (fun j => (stable_job_id j, j)) with
    | nil =>
      rw [hj] at hsel
      simp at hsel
    | cons a as => simp
  obtain ⟨ha, ho⟩ :=
    runLoop_fail dOk fid fj rest hfail pre (load_seen fs) hpre
  rw [← hsel] at ha ho
  refine ⟨?_, ?_, ?_⟩ <;> simp [mainRun, hne, ha, ho]

/-- Witness for C4: two selected candidates, first delivery fails. -/
theorem delivery_failure_aborts_witness :
    (mainRun .absent [jSeen, jNew] 2 (fun _ => false)).attempted = [jSeen] ∧
    (mainRun .absent [jSeen, jNew] 2 (fun _ => false)).savedSeen = none ∧
    (mainRun .absent [jSeen, jNew] 2 (fun _ => false)).exitOk = false := by
  have h := delivery_failure_aborts .absent [jSeen, jNew] 2 (fun _ => false)
    [] (stable_job_id jSeen) jSeen [(stable_job_id jNew, jNew)]
    (by decide) (by decide) (by decide)
  simpa using h

end Bot
